import Mathlib

/-!
Package sloginit: configuration of the process-wide structured logger.

A shallow embedding of `sloginit.go`.  The package keeps two package-level
variables (`fileLogger`, `closeOnce`) and drives three collaborators: the
structured-logging engine (`log/slog`), the rotating file writer
(`lumberjack.Logger`) and the operating system (`os.Getwd`, `os.MkdirAll`,
`os.Exit`, `path/filepath`).  Package state and the observable part of the
collaborators are gathered in one `World` record that every operation
transforms explicitly.
-/

namespace sloginit

/-! ## `path/filepath` on a slash-separated file system -/

/-- Components of a path between slashes, empty components included. -/
def splitSlash : List Char → List (List Char)
  | [] => [[]]
  | c :: cs =>
    match splitSlash cs with
    | [] => if c = '/' then [[], []] else [[c]]
    | seg :: segs => if c = '/' then [] :: seg :: segs else (c :: seg) :: segs

/-- One step of the lexical clean-up of `filepath.Clean`: `stack` holds the
components kept so far, innermost first. -/
def cleanStep (rooted : Bool) (stack : List (List Char)) (comp : List Char) :
    List (List Char) :=
  if comp = [] ∨ comp = ['.'] then stack
  else if comp = ['.', '.'] then
    match stack with
    | [] => if rooted then [] else [comp]
    | top :: below => if top = ['.', '.'] then comp :: stack else below
  else comp :: stack

/-- Components joined with single slashes. -/
def joinSlash : List (List Char) → List Char
  | [] => []
  | [seg] => seg
  | seg :: segs => seg ++ '/' :: joinSlash segs

/-- The function `filepath.Clean`: the shortest path lexically equivalent
to the argument. -/
def Clean (path : List Char) : List Char :=
  if path = [] then ['.']
  else
    let rooted : Bool := path.head? = some '/'
    let kept := ((splitSlash path).foldl (cleanStep rooted) []).reverse
    let body := joinSlash kept
    if rooted then '/' :: body
    else if body = [] then ['.'] else body

/-- The function `filepath.IsAbs`: a path is absolute when it starts with a
slash (the comment on `FileOutputConfig.Filename` says the same). -/
def IsAbs (path : String) : Bool :=
  path.data.head? = some '/'

/-- Elements separated by slashes, as `strings.Join(elem, "/")`. -/
def joinElems : List String → List Char
  | [] => []
  | [e] => e.data
  | e :: es => e.data ++ '/' :: joinElems es

/-- The function `filepath.Join`: leading empty elements are dropped, the
rest is joined with slashes and cleaned; all elements empty gives the empty
string. -/
def Join : List String → String
  | [] => ""
  | e :: es => if e = "" then Join es else String.mk (Clean (joinElems (e :: es)))

/-- The part of `path` up to and including its last slash (empty when it has
none). -/
def uptoLastSlash : List Char → List Char
  | [] => []
  | c :: cs =>
    match uptoLastSlash cs with
    | [] => if c = '/' then ['/'] else []
    | rest => c :: rest

/-- The function `filepath.Dir`: everything but the last element of the path,
cleaned. -/
def Dir (path : String) : String :=
  String.mk (Clean (uptoLastSlash path.data))

/-! ## `time.Time.Format` -/

/-- A point in time by its calendar and clock fields, the fields
`time.Time.Format` renders.  Month, day, hour, minute and second are kept
in their ranges by the types (`month0` and `day0` count from zero). -/
structure Time where
  year : Int
  month0 : Fin 12
  day0 : Fin 31
  hour : Fin 24
  minute : Fin 60
  second : Fin 60
  deriving DecidableEq

/-- Decimal digit as a character. -/
def digitChar (d : Nat) : Char :=
  Char.ofNat (48 + d % 10)

/-- Decimal digits of `n`, most significant first, prepended to `acc`. -/
def decimalAux : Nat → Nat → List Char → List Char
  | 0, n, acc => digitChar n :: acc
  | fuel + 1, n, acc =>
    if n < 10 then digitChar n :: acc
    else decimalAux fuel (n / 10) (digitChar n :: acc)

/-- Decimal rendering of a natural number. -/
def decimal (n : Nat) : List Char :=
  decimalAux n n []

/-- The helper `appendInt` of package `time`: a minus sign for a negative
number, then the decimal digits of the magnitude padded with zeros on the
left to at least `width` digits. -/
def appendInt (x : Int) (width : Nat) : List Char :=
  let digits := decimal x.natAbs
  let padded := List.replicate (width - digits.length) '0' ++ digits
  if x < 0 then '-' :: padded else padded

/-- Layout rendering of `time.Time.Format`, for layouts made of the numeric
date and clock elements `2006` (year, four digits at least), `01` (month),
`02` (day), `15` (hour), `04` (minute), `05` (second), each of the last five
zero-padded to two digits, and of characters the library copies.  On a
character that can start another element of the library (`J`, `M`, `P`,
`p`, `Z`, `_`, a digit from `0` to `5` outside the six elements, `-07`, a
point or comma before `0` or `9`) the result is `none`: this embedding says
nothing about such layouts. -/
def formatLayout (t : Time) : List Char → Option (List Char)
  | [] => some []
  | '2' :: '0' :: '0' :: '6' :: rest =>
    (formatLayout t rest).map (fun out => appendInt t.year 4 ++ out)
  | '0' :: '1' :: rest =>
    (formatLayout t rest).map (fun out => appendInt (t.month0.val + 1 : Nat) 2 ++ out)
  | '0' :: '2' :: rest =>
    (formatLayout t rest).map (fun out => appendInt (t.day0.val + 1 : Nat) 2 ++ out)
  | '1' :: '5' :: rest =>
    (formatLayout t rest).map (fun out => appendInt (t.hour.val : Nat) 2 ++ out)
  | '0' :: '4' :: rest =>
    (formatLayout t rest).map (fun out => appendInt (t.minute.val : Nat) 2 ++ out)
  | '0' :: '5' :: rest =>
    (formatLayout t rest).map (fun out => appendInt (t.second.val : Nat) 2 ++ out)
  | '-' :: '0' :: '7' :: _ => none
  | '.' :: '0' :: _ => none
  | '.' :: '9' :: _ => none
  | ',' :: '0' :: _ => none
  | ',' :: '9' :: _ => none
  | c :: rest =>
    if c ∈ ['J', 'M', 'P', 'p', 'Z', '_', '0', '1', '2', '3', '4', '5'] then none
    else (formatLayout t rest).map (fun out => c :: out)

/-- A function `Format` renders the modelled layouts as the library does:
wherever `formatLayout` gives a result, `Format` gives that string.  The
method `time.Time.Format` is such a function. -/
def RendersLayouts (Format : Time → String → String) : Prop :=
  ∀ (t : Time) (layout : String) (out : List Char),
    formatLayout t layout.data = some out → Format t layout = String.mk out

/-! ## `log/slog`: levels, attributes, handlers -/

/-- The type `slog.Level`, an integer. -/
abbrev Level := Int

/-- The constant `slog.LevelInfo`. -/
def LevelInfo : Level := 0

/-- The constant `slog.LevelError`. -/
def LevelError : Level := 8

/-- FatalLevel defines the Fatal log level, set higher than Error (8). -/
def FatalLevel : Level := 12

/-- The key `slog.TimeKey` of the built-in timestamp attribute. -/
def TimeKey : String := "time"

/-- The key `slog.LevelKey` of the built-in severity attribute. -/
def LevelKey : String := "level"

/-- The key `slog.MessageKey` of the built-in message attribute. -/
def MessageKey : String := "msg"

/-- The key `slog.SourceKey` of the built-in source-location attribute. -/
def SourceKey : String := "source"

/-- The values of `slog.Value` that occur here: a time, a string, an integer,
a boolean, a level (the built-in severity attribute) and a source location
(the built-in source attribute, whose content is not modelled).  Group
values are left out. -/
inductive Value where
  | time (t : Time)
  | string (s : String)
  | int (i : Int)
  | bool (b : Bool)
  | level (l : Level)
  | source
  deriving DecidableEq

/-- Name of the kind of a value, as `slog.Kind.String` prints it. -/
def Value.kindName : Value → String
  | .time _ => "Time"
  | .string _ => "String"
  | .int _ => "Int64"
  | .bool _ => "Bool"
  | .level _ => "Any"
  | .source => "Any"

/-- The method `slog.Value.Time`: the time held by a value of kind time; on
any other kind it panics. -/
def Value.Time : Value → Except String Time
  | .time t => .ok t
  | v => .error ("Value kind is " ++ v.kindName ++ ", not Time")

/-- The type `slog.Attr`, a key and a value. -/
structure Attr where
  Key : String
  Value : Value
  deriving DecidableEq

/-- The constructor `slog.String`. -/
def slogString (key : String) (value : String) : Attr :=
  { Key := key, Value := .string value }

/-- The type `slog.HandlerOptions`; its zero value has no level, no source
location and no attribute rewrite.  `ReplaceAttr` receives the group path
and the attribute, and may panic (`Except.error`). -/
structure HandlerOptions where
  AddSource : Bool := false
  Level : Option Level := none
  ReplaceAttr : Option (List String → Attr → Except String Attr) := none

/-- The sinks a handler can write to: standard output, standard error (the
sink of the logger the engine starts with), a writer supplied by the caller
(told apart by a number) and a rotating file writer (by its address). -/
inductive Writer where
  | stdout
  | stderr
  | custom (id : Nat)
  | rotating (ptr : Nat)
  deriving DecidableEq

/-- The default logger's handler: the one the engine starts with, or a JSON
handler made by `slog.NewJSONHandler(w, opts)`, which copies `opts`. -/
inductive Handler where
  | builtin
  | json (w : Writer) (opts : HandlerOptions)

/-- A log record, `slog.Record`. -/
structure Record where
  Time : Time
  Level : Level
  Message : String
  Attrs : List Attr

/-! ## Package types -/

/-- FileOutputConfig defines the configuration for file output. -/
structure FileOutputConfig where
  Filename : String
  MaxSize : Int
  MaxBackups : Int
  MaxAge : Int
  Compress : Bool
  deriving DecidableEq

/-- The fields of `lumberjack.Logger` the package sets. -/
structure LumberjackLogger where
  Filename : String
  MaxSize : Int
  MaxBackups : Int
  MaxAge : Int
  Compress : Bool
  deriving DecidableEq

/-- Package state and the observable part of the environment.

* `defaultLogger`: the handler of `slog.Default()`;
* `fileLogger`, `closeOnce`, `defaultFileOutputConfig`: the package variables
  (`fileLogger` is a pointer into `heap`, `closeOnce` is true once the latch
  has fired);
* `heap`: the rotating file writers allocated so far, by address;
* `released`: addresses on which `lumberjack.Logger.Close` was called, in
  order;
* `written`: the records handed to sinks, in order;
* `getwd`: what `os.Getwd` returns; `mkdirAllErr dir`: the error of
  `os.MkdirAll(dir, 0755)`, if any; `dirs`: directories made by it;
* `now`: what `time.Now` returns;
* `timeFormat t layout`: what the method `time.Time.Format` returns for the
  time `t` and the layout; the library function is a parameter of the
  embedding;
* `user`: the caller's own state, read and changed by level functions;
* `levelFuncCalls`: number of calls of level functions so far. -/
structure World where
  defaultLogger : Handler
  fileLogger : Option Nat
  closeOnce : Bool
  defaultFileOutputConfig : FileOutputConfig
  heap : List LumberjackLogger
  released : List Nat
  written : List (Writer × List Attr)
  getwd : Except String String
  mkdirAllErr : String → Option String
  dirs : List String
  now : Time
  timeFormat : Time → String → String
  user : Nat
  levelFuncCalls : Nat

/-- How a call of a level function ends: it returns a level, or it panics
with a message; either way it leaves a caller state. -/
inductive LevelCall where
  | returned (level : Level) (user : Nat)
  | panicked (msg : String) (user : Nat)

/-- LevelFunc is a function type that returns slog.Level.  The value can be
nil (`none`); calling nil panics.  A function of no arguments sees the whole
world when it is called (the installed default logger and the caller's own
state included) and returns a level or panics, leaving a new caller state.
Level functions are taken to terminate and to leave the variables of this
package and the default logger as they are. -/
abbrev LevelFunc := Option (World → LevelCall)

/-- How a call ends: it returns a value, it panics with a message, or it
ends the process with an exit status; each with the world it leaves. -/
inductive Res (α : Type) where
  | done (a : α) (w : World)
  | panicked (msg : String) (w : World)
  | exited (code : Int) (w : World)

/-- The world a call leaves. -/
def Res.world {α : Type} : Res α → World
  | .done _ w => w
  | .panicked _ w => w
  | .exited _ w => w

/-- defaultFileOutputConfig provides the default file output configuration:
100 MB, no limit on backups, 28 days, compression on. -/
def defaultFileOutputConfig : FileOutputConfig :=
  { Filename := "", MaxSize := 100, MaxBackups := 0, MaxAge := 28, Compress := true }

/-- The state of a process that has not called the package yet. -/
def World.start (getwd : Except String String) (mkdirAllErr : String → Option String)
    (now : Time) (timeFormat : Time → String → String) (user : Nat) : World :=
  { defaultLogger := .builtin
    fileLogger := none
    closeOnce := false
    defaultFileOutputConfig := sloginit.defaultFileOutputConfig
    heap := []
    released := []
    written := []
    getwd := getwd
    mkdirAllErr := mkdirAllErr
    dirs := []
    now := now
    timeFormat := timeFormat
    user := user
    levelFuncCalls := 0 }

/-- DefaultFileOutputConfig returns the default file output configuration
with the specified filename: a copy of the package variable with its
`Filename` set. -/
def DefaultFileOutputConfig (filename : String) (w : World) : Res FileOutputConfig :=
  let config := w.defaultFileOutputConfig
  let config := { config with Filename := filename }
  .done config w

/-- The call `slog.SetDefault(slog.New(handler))`. -/
def SetDefault (handler : Handler) (w : World) : World :=
  { w with defaultLogger := handler }

/-- The call `os.MkdirAll(dir, 0755)`: an error from the file system, or the
directory exists afterwards. -/
def MkdirAll (dir : String) (w : World) : Except String World :=
  match w.mkdirAllErr dir with
  | some err => .error err
  | none => .ok { w with dirs := if dir ∈ w.dirs then w.dirs else w.dirs ++ [dir] }

/-- The attribute rewrite installed by `WithTimeFormat(format)`: the
attribute with the timestamp key becomes a string attribute holding the
formatted time, every other attribute is returned as it is.  `Value.Time`
panics when the value under the timestamp key is not a time.  `Format` is
the method `time.Time.Format`. -/
def WithTimeFormat.ReplaceAttr (Format : Time → String → String) (format : String)
    (_groups : List String) (a : Attr) : Except String Attr :=
  if a.Key = TimeKey then
    match a.Value.Time with
    | .ok t => .ok (slogString a.Key (Format t format))
    | .error msg => .error msg
  else .ok a

/-- Option is a function type used to modify slog.HandlerOptions; the six
constructors of the package. -/
inductive LogOption where
  | WithLevel (level : Level)
  | WithLevelFunc (levelFunc : LevelFunc)
  | WithOutput (w : Writer)
  | WithFileOutput (config : FileOutputConfig)
  | WithSource (addSource : Bool)
  | WithTimeFormat (format : String)

/-- WithFileOutput sets file output and configures log rotation. -/
def WithFileOutput (config : FileOutputConfig) (opts : HandlerOptions) (w : World) :
    Res HandlerOptions :=
  let resolved : Except String String :=
    if !IsAbs config.Filename then
      match w.getwd with
      | .error err => .error ("Unable to get current working directory: " ++ err)
      | .ok currentDir => .ok (Join [currentDir, config.Filename])
    else .ok config.Filename
  match resolved with
  | .error msg => .panicked msg w
  | .ok filename =>
    let logDir := Dir filename
    match MkdirAll logDir w with
    | .error err => .panicked ("Unable to create log directory: " ++ err) w
    | .ok w1 =>
      let ptr := w1.heap.length
      let w2 : World :=
        { w1 with
          heap := w1.heap ++ [{ Filename := filename, MaxSize := config.MaxSize,
                                MaxBackups := config.MaxBackups, MaxAge := config.MaxAge,
                                Compress := config.Compress }]
          fileLogger := some ptr }
      .done opts (SetDefault (.json (.rotating ptr) opts) w2)

/-- The body of each option, applied to the pending options record. -/
def LogOption.apply : LogOption → HandlerOptions → World → Res HandlerOptions
  | .WithLevel level, opts, w => .done { opts with Level := some level } w
  | .WithLevelFunc levelFunc, opts, w =>
    match levelFunc with
    | none => .panicked "runtime error: invalid memory address or nil pointer dereference" w
    | some f =>
      match f w with
      | .returned level user =>
        .done { opts with Level := some level }
          { w with user := user, levelFuncCalls := w.levelFuncCalls + 1 }
      | .panicked msg user =>
        .panicked msg { w with user := user, levelFuncCalls := w.levelFuncCalls + 1 }
  | .WithOutput out, opts, w => .done opts (SetDefault (.json out opts) w)
  | .WithFileOutput config, opts, w => sloginit.WithFileOutput config opts w
  | .WithSource addSource, opts, w => .done { opts with AddSource := addSource } w
  | .WithTimeFormat format, opts, w =>
    .done { opts with ReplaceAttr := some (WithTimeFormat.ReplaceAttr w.timeFormat format) } w

/-- The loop of `Init` that applies all options in order. -/
def applyOptions : List LogOption → HandlerOptions → World → Res HandlerOptions
  | [], opts, w => .done opts w
  | option :: rest, opts, w =>
    match option.apply opts w with
    | .done opts1 w1 => applyOptions rest opts1 w1
    | .panicked msg w1 => .panicked msg w1
    | .exited code w1 => .exited code w1

/-- Init initializes slog: a fresh options record, all options applied, then
a JSON handler over `output`, which is standard output, set as the global
logger. -/
def Init (options : List LogOption) (w : World) : Res Unit :=
  let opts : HandlerOptions := {}
  let output : Writer := .stdout
  match applyOptions options opts w with
  | .done opts1 w1 => .done () (SetDefault (.json output opts1) w1)
  | .panicked msg w1 => .panicked msg w1
  | .exited code w1 => .exited code w1

/-- The minimum level of a handler: the level of its options, `LevelInfo`
when none is set. -/
def Handler.minLevel : Handler → Level
  | .builtin => LevelInfo
  | .json _ opts => opts.Level.getD LevelInfo

/-- The method `Enabled` of a handler. -/
def Handler.Enabled (h : Handler) (level : Level) : Bool :=
  decide (h.minLevel ≤ level)

/-- The options a handler was made with (none for the handler the engine
starts with). -/
def Handler.opts : Handler → HandlerOptions
  | .builtin => {}
  | .json _ opts => opts

/-- The sink of a handler. -/
def Handler.sink : Handler → Writer
  | .builtin => .stderr
  | .json w _ => w

/-- Attributes passed through the rewrite one by one (with no group open);
the first panic ends the pass. -/
def rewriteAttrs (rep : List String → Attr → Except String Attr) :
    List Attr → Except String (List Attr)
  | [] => .ok []
  | a :: rest =>
    match rep [] a with
    | .error msg => .error msg
    | .ok a1 =>
      match rewriteAttrs rep rest with
      | .error msg => .error msg
      | .ok rest1 => .ok (a1 :: rest1)

/-- The built-in attributes of a record followed by its own, in the order
the JSON handler emits them: time, level, source (when asked for),
message, then the rest. -/
def Record.fields (r : Record) (addSource : Bool) : List Attr :=
  [{ Key := TimeKey, Value := .time r.Time }, { Key := LevelKey, Value := .level r.Level }]
    ++ (if addSource then [{ Key := SourceKey, Value := .source }] else [])
    ++ [slogString MessageKey r.Message]
    ++ r.Attrs

/-- The method `Handle`: the record's fields, rewritten when the options
carry a rewrite, are written to the sink as one entry.  The handler the
engine starts with writes time, level, message and attributes. -/
def Handler.Handle (h : Handler) (r : Record) (w : World) : Res Unit :=
  match h with
  | .builtin => .done () { w with written := w.written ++ [(.stderr, r.fields false)] }
  | .json out opts =>
    match opts.ReplaceAttr with
    | none => .done () { w with written := w.written ++ [(out, r.fields opts.AddSource)] }
    | some rep =>
      match rewriteAttrs rep (r.fields opts.AddSource) with
      | .error msg => .panicked msg w
      | .ok fields => .done () { w with written := w.written ++ [(out, fields)] }

/-- The call `slog.Log(ctx, level, msg, args...)` on the default logger:
nothing when the level is not enabled, else a record stamped with the
current time is handled.  `args` are given as attributes. -/
def Log (level : Level) (msg : String) (args : List Attr) (w : World) : Res Unit :=
  if !w.defaultLogger.Enabled level then .done () w
  else
    w.defaultLogger.Handle { Time := w.now, Level := level, Message := msg, Attrs := args } w

/-- Fatal logs a Fatal level message and terminates the program. -/
def Fatal (msg : String) (args : List Attr) (w : World) : Res Unit :=
  match Log FatalLevel msg args w with
  | .done _ w1 => .exited 1 w1
  | .panicked m w1 => .panicked m w1
  | .exited code w1 => .exited code w1

/-- Close safely closes the log file if file output is being used.  The
function passed to `closeOnce.Do` runs on the first call only; the error
of `fileLogger.Close()` is discarded. -/
def Close (w : World) : World :=
  if w.closeOnce then w
  else
    let w1 : World :=
      match w.fileLogger with
      | some ptr => { w with released := w.released ++ [ptr] }
      | none => w
    { w1 with closeOnce := true }

/-- Close called `n` times in a row. -/
def closeTimes : Nat → World → World
  | 0, w => w
  | n + 1, w => closeTimes n (Close w)

/-- The calls a program can make into the package and the engine. -/
inductive Op where
  | Init (options : List LogOption)
  | Apply (option : LogOption) (opts : HandlerOptions)
  | Close
  | Log (level : Level) (msg : String) (args : List Attr)
  | Fatal (msg : String) (args : List Attr)
  | DefaultFileOutputConfig (filename : String)

/-- One call. -/
def Op.step : Op → World → Res Unit
  | .Init options, w => sloginit.Init options w
  | .Apply option opts, w =>
    match option.apply opts w with
    | .done _ w1 => .done () w1
    | .panicked msg w1 => .panicked msg w1
    | .exited code w1 => .exited code w1
  | .Close, w => .done () (sloginit.Close w)
  | .Log level msg args, w => sloginit.Log level msg args w
  | .Fatal msg args, w => sloginit.Fatal msg args w
  | .DefaultFileOutputConfig filename, w =>
    match sloginit.DefaultFileOutputConfig filename w with
    | .done _ w1 => .done () w1
    | .panicked msg w1 => .panicked msg w1
    | .exited code w1 => .exited code w1

/-- A sequence of calls; a panic or an exit ends it. -/
def run : List Op → World → Res Unit
  | [], w => .done () w
  | op :: rest, w =>
    match op.step w with
    | .done _ w1 => run rest w1
    | .panicked msg w1 => .panicked msg w1
    | .exited code w1 => .exited code w1

/-- Worlds a process can be in: reached from a start state by calls. -/
def Reachable (w : World) : Prop :=
  ∃ getwd mkdirAllErr now timeFormat user ops,
    (run ops (World.start getwd mkdirAllErr now timeFormat user)).world = w

/-! ## Vocabulary of the properties -/

/-- Options that set the minimum severity. -/
def LogOption.setsSeverity : LogOption → Bool
  | .WithLevel _ => true
  | .WithLevelFunc _ => true
  | _ => false

/-- Options that change the sink. -/
def LogOption.changesSink : LogOption → Bool
  | .WithOutput _ => true
  | .WithFileOutput _ => true
  | _ => false

/-- Options that call a level function. -/
def LogOption.callsLevelFunc : LogOption → Bool
  | .WithLevelFunc _ => true
  | _ => false

/-- The level a severity-setting option contributes when it is applied in
world `w`: `WithLevel(l)` gives `l`, `WithLevelFunc(f)` gives what `f`
returns when called in `w`. -/
def LogOption.severityAt : LogOption → World → Level
  | .WithLevel level, _ => level
  | .WithLevelFunc (some f), w =>
    match f w with
    | .returned level _ => level
    | .panicked _ _ => LevelInfo
  | _, _ => LevelInfo

/-- The value stored under a key in an emitted entry. -/
def fieldOf (key : String) : List Attr → Option Value
  | [] => none
  | a :: rest => if a.Key = key then some a.Value else fieldOf key rest

/-- The panic of `WithFileOutput(config)` in world `w`, as the description
of the failure semantics has it: the working directory cannot be determined
for a relative filename, or the parent directory of the log file cannot be
created. -/
def fileOutputFault (config : FileOutputConfig) (w : World) : Prop :=
  (IsAbs config.Filename = false ∧ ∃ err, w.getwd = .error err) ∨
  (IsAbs config.Filename = false ∧
    ∃ cwd err, w.getwd = .ok cwd ∧ w.mkdirAllErr (Dir (Join [cwd, config.Filename])) = some err) ∨
  (IsAbs config.Filename = true ∧ ∃ err, w.mkdirAllErr (Dir config.Filename) = some err)

/-! ## Sample inputs -/

/-- A sample time, 5 March 2024, 13:04:05. -/
def sampleTime : Time :=
  { year := 2024, month0 := 2, day0 := 4, hour := 13, minute := 4, second := 5 }

/-- The first day of the year 10000. -/
def year10000 : Time :=
  { year := 10000, month0 := 0, day0 := 0, hour := 0, minute := 0, second := 0 }

/-- A renderer for the sample worlds: the rendering of `formatLayout`, which
is the library's, on the layouts it covers; the samples use no other
layout (there it gives the empty string). -/
def sampleFormat (t : Time) (layout : String) : String :=
  String.mk ((formatLayout t layout.data).getD [])

/-- A fresh process in `/srv/app` on a file system that makes every
directory. -/
def sampleWorld : World :=
  World.start (.ok "/srv/app") (fun _ => none) sampleTime sampleFormat 0

/-- A fresh process whose working directory cannot be determined. -/
def lostWorld : World :=
  World.start (.error "getwd: no such file or directory") (fun _ => none) sampleTime
    sampleFormat 0

/-- A sample file configuration with a relative filename. -/
def sampleConfig : FileOutputConfig :=
  { Filename := "logs/app.log", MaxSize := 5, MaxBackups := 3, MaxAge := 7, Compress := false }

/-- The world after `Init` with the error level and a date format. -/
def dateLoggerWorld : World :=
  (Init [.WithLevel 8, .WithTimeFormat "2006-01-02"] sampleWorld).world

/-- The world after `Init` with a source option and a file option. -/
def fileSinkWorld : World :=
  (Init [.WithSource true, .WithFileOutput sampleConfig] sampleWorld).world

/-- The world after `WithFileOutput(sampleConfig)` applied on its own. -/
def fileOnlyWorld : World :=
  (WithFileOutput sampleConfig {} sampleWorld).world

/-- The world after a few calls in a fresh process. -/
def busyWorld : World :=
  (run [.Init [.WithFileOutput sampleConfig], .DefaultFileOutputConfig "a.log", .Close]
    sampleWorld).world

/-- A level function that returns the caller's counter and advances it. -/
def countingLevel : LevelFunc :=
  some (fun w => .returned (w.user : Int) (w.user + 1))

/-- The world after `Init` with a level, the source flag and a year format. -/
def firstInitWorld : World :=
  (Init [.WithLevel 4, .WithSource true, .WithTimeFormat "2006"] sampleWorld).world

/-- The world after a second `Init`, with the counting level function, a
fixed level and the source flag off, following `firstInitWorld`. -/
def secondInitWorld : World :=
  (Init [.WithLevelFunc countingLevel, .WithLevel 2, .WithSource false] firstInitWorld).world

/-- The world after that second `Init` run alone in a fresh process. -/
def aloneInitWorld : World :=
  (Init [.WithLevelFunc countingLevel, .WithLevel 2, .WithSource false] sampleWorld).world

/-- The world after `Init` with a fixed level, the counting level function
twice and a source option. -/
def twoCountsWorld : World :=
  (Init [.WithLevel 4, .WithLevelFunc countingLevel, .WithLevelFunc countingLevel,
    .WithSource true] sampleWorld).world

/-! ## Lemmas on the rendering of numbers and times -/

theorem decimalAux_length_le (fuel : Nat) :
    ∀ (n k : Nat) (acc : List Char), n < 10 ^ (k + 1) →
      (decimalAux fuel n acc).length ≤ acc.length + (k + 1) := by
  induction fuel with
  | zero =>
    intro n k acc _
    simp [decimalAux]
  | succ fuel ih =>
    intro n k acc hn
    unfold decimalAux
    split
    · simp
    · rename_i hge
      cases k with
      | zero => omega
      | succ k =>
        have hdiv : n / 10 < 10 ^ (k + 1) := by
          rw [Nat.div_lt_iff_lt_mul (by decide)]
          calc n < 10 ^ (k + 1 + 1) := hn
            _ = 10 ^ (k + 1) * 10 := by ring
        have := ih (n / 10) k (digitChar n :: acc) hdiv
        simp only [List.length_cons] at this
        omega

theorem appendInt_length (x : Int) (width : Nat) (h0 : 0 ≤ x) (hw : 0 < width)
    (hx : x.natAbs < 10 ^ width) : (appendInt x width).length = width := by
  obtain ⟨k, rfl⟩ : ∃ k, width = k + 1 := ⟨width - 1, by omega⟩
  have hle := decimalAux_length_le x.natAbs x.natAbs k [] hx
  simp only [List.length_nil, Nat.zero_add] at hle
  unfold appendInt decimal
  have hneg : ¬ x < 0 := by omega
  simp only [hneg, if_false, List.length_append, List.length_replicate]
  omega

theorem formatLayout_date (t : Time) :
    formatLayout t "2006-01-02".data =
      some (appendInt t.year 4 ++ ('-' :: (appendInt (t.month0.val + 1 : Nat) 2 ++
        ('-' :: (appendInt (t.day0.val + 1 : Nat) 2 ++ []))))) := rfl

theorem Format_date_length (Format : Time → String → String) (hF : RendersLayouts Format)
    (t : Time) (h0 : 0 ≤ t.year) (h1 : t.year ≤ 9999) :
    (Format t "2006-01-02").length = 10 := by
  have hy : (appendInt t.year 4).length = 4 :=
    appendInt_length t.year 4 h0 (by decide) (by omega)
  have hm : (appendInt (t.month0.val + 1 : Nat) 2).length = 2 :=
    appendInt_length _ 2 (by omega) (by decide) (by have := t.month0.isLt; omega)
  have hd : (appendInt (t.day0.val + 1 : Nat) 2).length = 2 :=
    appendInt_length _ 2 (by omega) (by decide) (by have := t.day0.isLt; omega)
  rw [hF t "2006-01-02" _ (formatLayout_date t)]
  show (appendInt t.year 4 ++ ('-' :: (appendInt (t.month0.val + 1 : Nat) 2 ++
        ('-' :: (appendInt (t.day0.val + 1 : Nat) 2 ++ []))))).length = 10
  simp only [List.length_append, List.length_cons, List.length_nil, hy, hm, hd]

theorem sampleFormat_renders : RendersLayouts sampleFormat := by
  intro t layout out h
  simp [sampleFormat, h]

/-! ## Lemmas on the options -/

theorem WithFileOutput_spec (c : FileOutputConfig) (opts : HandlerOptions) (w : World) :
    (fileOutputFault c w ∧ ∃ msg, WithFileOutput c opts w = .panicked msg w ∧
      ((∃ err, msg = "Unable to get current working directory: " ++ err) ∨
        ∃ err, msg = "Unable to create log directory: " ++ err)) ∨
    (¬ fileOutputFault c w ∧ ∃ filename,
      (IsAbs c.Filename = true → filename = c.Filename) ∧
      (IsAbs c.Filename = false → ∃ cwd, w.getwd = .ok cwd ∧ filename = Join [cwd, c.Filename]) ∧
      WithFileOutput c opts w = .done opts
        { w with
          dirs := if Dir filename ∈ w.dirs then w.dirs else w.dirs ++ [Dir filename]
          heap := w.heap ++ [{ Filename := filename, MaxSize := c.MaxSize,
                               MaxBackups := c.MaxBackups, MaxAge := c.MaxAge,
                               Compress := c.Compress }]
          fileLogger := some w.heap.length
          defaultLogger := .json (.rotating w.heap.length) opts }) := by
  unfold WithFileOutput fileOutputFault MkdirAll SetDefault
  cases habs : IsAbs c.Filename
  · cases hwd : w.getwd with
    | error err => simp
    | ok cwd =>
      cases hmk : w.mkdirAllErr (Dir (Join [cwd, c.Filename])) with
      | some err => simp [hmk]
      | none => simp [hmk]
  · cases hmk : w.mkdirAllErr (Dir c.Filename) with
    | some err => simp [hmk]
    | none => simp [hmk]

theorem apply_WithLevelFunc (levelFunc : LevelFunc) (opts : HandlerOptions) (w : World) :
    (levelFunc = none ∧ ∃ msg, (LogOption.WithLevelFunc levelFunc).apply opts w = .panicked msg w) ∨
    (∃ f level user, levelFunc = some f ∧ f w = .returned level user ∧
      (LogOption.WithLevelFunc levelFunc).apply opts w =
        .done { opts with Level := some level }
          { w with user := user, levelFuncCalls := w.levelFuncCalls + 1 }) ∨
    (∃ f msg user, levelFunc = some f ∧ f w = .panicked msg user ∧
      (LogOption.WithLevelFunc levelFunc).apply opts w =
        .panicked msg { w with user := user, levelFuncCalls := w.levelFuncCalls + 1 }) := by
  cases levelFunc with
  | none => exact Or.inl ⟨rfl, _, rfl⟩
  | some f =>
    cases hf : f w with
    | returned level user =>
      exact Or.inr (Or.inl ⟨f, level, user, rfl, hf, by simp [LogOption.apply, hf]⟩)
    | panicked msg user =>
      exact Or.inr (Or.inr ⟨f, msg, user, rfl, hf, by simp [LogOption.apply, hf]⟩)

theorem apply_frame (o : LogOption) (opts : HandlerOptions) (w : World) :
    (o.apply opts w).world.defaultFileOutputConfig = w.defaultFileOutputConfig ∧
    (o.apply opts w).world.closeOnce = w.closeOnce ∧
    (o.apply opts w).world.released = w.released ∧
    (o.apply opts w).world.written = w.written := by
  cases o with
  | WithFileOutput c =>
    rcases WithFileOutput_spec c opts w with ⟨_, msg, h, _⟩ | ⟨_, filename, _, _, h⟩ <;>
      simp [LogOption.apply, h, Res.world]
  | WithLevelFunc levelFunc =>
    rcases apply_WithLevelFunc levelFunc opts w with
      ⟨_, msg, h⟩ | ⟨f, level, user, _, _, h⟩ | ⟨f, msg, user, _, _, h⟩ <;>
      simp [h, Res.world]
  | _ => simp [LogOption.apply, Res.world, SetDefault]

theorem applyOptions_frame (options : List LogOption) :
    ∀ (opts : HandlerOptions) (w : World),
      (applyOptions options opts w).world.defaultFileOutputConfig = w.defaultFileOutputConfig ∧
      (applyOptions options opts w).world.closeOnce = w.closeOnce ∧
      (applyOptions options opts w).world.released = w.released ∧
      (applyOptions options opts w).world.written = w.written := by
  induction options with
  | nil => intro opts w; simp [applyOptions, Res.world]
  | cons o rest ih =>
    intro opts w
    have h := apply_frame o opts w
    unfold applyOptions
    cases hr : o.apply opts w with
    | done opts1 w1 =>
      rw [hr] at h
      simp only [Res.world] at h
      have h2 := ih opts1 w1
      simp only [h.1, h.2.1, h.2.2.1, h.2.2.2] at h2
      exact h2
    | panicked msg w1 => rw [hr] at h; simpa [Res.world] using h
    | exited code w1 => rw [hr] at h; simpa [Res.world] using h

theorem Init_eq (options : List LogOption) (w : World) :
    Init options w =
      match applyOptions options {} w with
      | .done opts1 w1 => .done () (SetDefault (.json .stdout opts1) w1)
      | .panicked msg w1 => .panicked msg w1
      | .exited code w1 => .exited code w1 := rfl

theorem Init_frame (options : List LogOption) (w : World) :
    (Init options w).world.defaultFileOutputConfig = w.defaultFileOutputConfig ∧
    (Init options w).world.closeOnce = w.closeOnce ∧
    (Init options w).world.released = w.released ∧
    (Init options w).world.written = w.written := by
  have h := applyOptions_frame options {} w
  rw [Init_eq]
  cases hr : applyOptions options {} w with
  | done opts1 w1 => rw [hr] at h; simpa [Res.world, SetDefault] using h
  | panicked msg w1 => rw [hr] at h; simpa [Res.world] using h
  | exited code w1 => rw [hr] at h; simpa [Res.world] using h

theorem Handle_frame (h : Handler) (r : Record) (w : World) :
    (h.Handle r w).world.defaultFileOutputConfig = w.defaultFileOutputConfig ∧
    (h.Handle r w).world.closeOnce = w.closeOnce ∧
    (h.Handle r w).world.released = w.released ∧
    (h.Handle r w).world.fileLogger = w.fileLogger ∧
    (h.Handle r w).world.heap = w.heap ∧
    (h.Handle r w).world.user = w.user ∧
    (h.Handle r w).world.levelFuncCalls = w.levelFuncCalls ∧
    (h.Handle r w).world.defaultLogger = w.defaultLogger := by
  cases h with
  | builtin => simp [Handler.Handle, Res.world]
  | json out opts =>
    unfold Handler.Handle
    cases hrep : opts.ReplaceAttr with
    | none => simp [hrep, Res.world]
    | some rep =>
      cases hrw : rewriteAttrs rep (r.fields opts.AddSource) <;> simp [hrep, hrw, Res.world]

theorem Log_frame (level : Level) (msg : String) (args : List Attr) (w : World) :
    (Log level msg args w).world.defaultFileOutputConfig = w.defaultFileOutputConfig ∧
    (Log level msg args w).world.closeOnce = w.closeOnce ∧
    (Log level msg args w).world.released = w.released ∧
    (Log level msg args w).world.fileLogger = w.fileLogger ∧
    (Log level msg args w).world.heap = w.heap ∧
    (Log level msg args w).world.user = w.user ∧
    (Log level msg args w).world.levelFuncCalls = w.levelFuncCalls ∧
    (Log level msg args w).world.defaultLogger = w.defaultLogger := by
  unfold Log
  split
  · simp [Res.world]
  · exact Handle_frame _ _ w

theorem Fatal_world (msg : String) (args : List Attr) (w : World) :
    (Fatal msg args w).world = (Log FatalLevel msg args w).world := by
  unfold Fatal
  cases Log FatalLevel msg args w <;> rfl

theorem Close_frame (w : World) :
    (Close w).defaultFileOutputConfig = w.defaultFileOutputConfig ∧
    (Close w).closeOnce = true ∧
    (w.closeOnce = true → Close w = w) := by
  unfold Close
  cases hc : w.closeOnce
  · cases hf : w.fileLogger <;> simp
  · simp [hc]

theorem step_world (op : Op) (w : World) :
    (op.step w).world.defaultFileOutputConfig = w.defaultFileOutputConfig ∧
    (w.closeOnce = true →
      (op.step w).world.closeOnce = true ∧ (op.step w).world.released = w.released) := by
  cases op with
  | Init options =>
    have h := Init_frame options w
    exact ⟨h.1, fun hc => ⟨by simpa [Op.step, hc] using h.2.1, h.2.2.1⟩⟩
  | Apply o opts =>
    have h := apply_frame o opts w
    have hw : (Op.step (.Apply o opts) w).world = (o.apply opts w).world := by
      show (match o.apply opts w with
        | .done _ w1 => Res.done () w1
        | .panicked msg w1 => .panicked msg w1
        | .exited code w1 => .exited code w1).world = _
      cases o.apply opts w <;> rfl
    rw [hw]
    exact ⟨h.1, fun hc => ⟨by rw [h.2.1, hc], h.2.2.1⟩⟩
  | Close =>
    have h := Close_frame w
    exact ⟨h.1, fun hc => by simp [Op.step, Res.world, h.2.2 hc, hc]⟩
  | Log level msg args =>
    have h := Log_frame level msg args w
    exact ⟨h.1, fun hc => ⟨by simpa [Op.step, hc] using h.2.1, h.2.2.1⟩⟩
  | Fatal msg args =>
    have h := Log_frame FatalLevel msg args w
    have hw : (Op.step (.Fatal msg args) w).world = (Log FatalLevel msg args w).world :=
      Fatal_world msg args w
    rw [hw]
    exact ⟨h.1, fun hc => ⟨by rw [h.2.1, hc], h.2.2.1⟩⟩
  | DefaultFileOutputConfig filename =>
    simp [Op.step, sloginit.DefaultFileOutputConfig, Res.world]

theorem run_world (ops : List Op) :
    ∀ w : World,
      (run ops w).world.defaultFileOutputConfig = w.defaultFileOutputConfig ∧
      (w.closeOnce = true →
        (run ops w).world.closeOnce = true ∧ (run ops w).world.released = w.released) := by
  induction ops with
  | nil => intro w; simp [run, Res.world]
  | cons op rest ih =>
    intro w
    have h := step_world op w
    unfold run
    cases hr : op.step w with
    | done u w1 =>
      rw [hr] at h
      simp only [Res.world] at h
      have h2 := ih w1
      refine ⟨by rw [h2.1, h.1], fun hc => ?_⟩
      have h3 := h2.2 (h.2 hc).1
      exact ⟨h3.1, by rw [h3.2, (h.2 hc).2]⟩
    | panicked msg w1 => rw [hr] at h; simpa [Res.world] using h
    | exited code w1 => rw [hr] at h; simpa [Res.world] using h

theorem applyOptions_append (pre : List LogOption) :
    ∀ (post : List LogOption) (opts : HandlerOptions) (w : World),
      applyOptions (pre ++ post) opts w =
        match applyOptions pre opts w with
        | .done opts1 w1 => applyOptions post opts1 w1
        | .panicked msg w1 => .panicked msg w1
        | .exited code w1 => .exited code w1 := by
  induction pre with
  | nil => intro post opts w; rfl
  | cons o rest ih =>
    intro post opts w
    show (match o.apply opts w with
      | .done opts1 w1 => applyOptions (rest ++ post) opts1 w1
      | .panicked msg w1 => .panicked msg w1
      | .exited code w1 => .exited code w1) =
      match (match o.apply opts w with
        | .done opts1 w1 => applyOptions rest opts1 w1
        | .panicked msg w1 => .panicked msg w1
        | .exited code w1 => .exited code w1) with
      | .done opts1 w1 => applyOptions post opts1 w1
      | .panicked msg w1 => .panicked msg w1
      | .exited code w1 => .exited code w1
    cases o.apply opts w with
    | done opts1 w1 => exact ih post opts1 w1
    | panicked msg w1 => rfl
    | exited code w1 => rfl

theorem applyOptions_cons (o : LogOption) (rest : List LogOption) (opts : HandlerOptions)
    (w : World) :
    applyOptions (o :: rest) opts w =
      match o.apply opts w with
      | .done opts1 w1 => applyOptions rest opts1 w1
      | .panicked msg w1 => .panicked msg w1
      | .exited code w1 => .exited code w1 := rfl

theorem apply_done (o : LogOption) (opts opts1 : HandlerOptions) (w w1 : World)
    (h : o.apply opts w = .done opts1 w1) :
    opts1.Level = (if o.setsSeverity then some (o.severityAt w) else opts.Level) ∧
    opts1.AddSource = (match o with
      | .WithSource addSource => addSource
      | _ => opts.AddSource) ∧
    opts1.ReplaceAttr = (match o with
      | .WithTimeFormat format => some (WithTimeFormat.ReplaceAttr w.timeFormat format)
      | _ => opts.ReplaceAttr) ∧
    w1.timeFormat = w.timeFormat ∧
    w1.levelFuncCalls = w.levelFuncCalls + (if o.callsLevelFunc then 1 else 0) := by
  cases o with
  | WithLevel level =>
    simp only [LogOption.apply, Res.done.injEq] at h
    obtain ⟨rfl, rfl⟩ := h
    simp [LogOption.setsSeverity, LogOption.severityAt, LogOption.callsLevelFunc]
  | WithLevelFunc levelFunc =>
    rcases apply_WithLevelFunc levelFunc opts w with
      ⟨_, msg, h2⟩ | ⟨f, level, user, hlf, hf, h2⟩ | ⟨f, msg, user, _, _, h2⟩
    · rw [h2] at h; cases h
    · rw [h2] at h
      simp only [Res.done.injEq] at h
      obtain ⟨rfl, rfl⟩ := h
      subst hlf
      simp [LogOption.setsSeverity, LogOption.severityAt, LogOption.callsLevelFunc, hf]
    · rw [h2] at h; cases h
  | WithOutput out =>
    simp only [LogOption.apply, Res.done.injEq] at h
    obtain ⟨rfl, rfl⟩ := h
    simp [LogOption.setsSeverity, LogOption.callsLevelFunc, SetDefault]
  | WithFileOutput c =>
    rcases WithFileOutput_spec c opts w with ⟨_, msg, h2, _⟩ | ⟨_, filename, _, _, h2⟩
    · simp [LogOption.apply, h2] at h
    · simp only [LogOption.apply, h2, Res.done.injEq] at h
      obtain ⟨rfl, rfl⟩ := h
      simp [LogOption.setsSeverity, LogOption.callsLevelFunc]
  | WithSource addSource =>
    simp only [LogOption.apply, Res.done.injEq] at h
    obtain ⟨rfl, rfl⟩ := h
    simp [LogOption.setsSeverity, LogOption.callsLevelFunc]
  | WithTimeFormat format =>
    simp only [LogOption.apply, Res.done.injEq] at h
    obtain ⟨rfl, rfl⟩ := h
    simp [LogOption.setsSeverity, LogOption.callsLevelFunc]

theorem apply_severity (o : LogOption) (opts opts1 : HandlerOptions) (w w1 : World)
    (ho : o.setsSeverity = true) (h : o.apply opts w = .done opts1 w1) :
    opts1.Level = some (o.severityAt w) := by
  have := (apply_done o opts opts1 w w1 h).1
  rw [this, ho]
  rfl

theorem apply_keeps_Level (o : LogOption) (opts opts1 : HandlerOptions) (w w1 : World)
    (ho : o.setsSeverity = false) (h : o.apply opts w = .done opts1 w1) :
    opts1.Level = opts.Level := by
  have := (apply_done o opts opts1 w w1 h).1
  rw [this, ho]
  rfl

theorem applyOptions_keeps_Level (post : List LogOption) :
    ∀ (opts opts1 : HandlerOptions) (w w1 : World),
      (∀ p ∈ post, p.setsSeverity = false) → applyOptions post opts w = .done opts1 w1 →
      opts1.Level = opts.Level := by
  induction post with
  | nil =>
    intro opts opts1 w w1 _ h
    simp only [applyOptions, Res.done.injEq] at h
    rw [← h.1]
  | cons o rest ih =>
    intro opts opts1 w w1 hpost h
    rw [applyOptions_cons] at h
    cases hr : o.apply opts w with
    | done opts2 w2 =>
      rw [hr] at h
      have h1 := apply_keeps_Level o opts opts2 w w2 (hpost o (List.mem_cons_self _ _)) hr
      have h2 := ih opts2 opts1 w2 w1 (fun p hp => hpost p (List.mem_cons_of_mem _ hp)) h
      rw [h2, h1]
    | panicked msg w2 => rw [hr] at h; cases h
    | exited code w2 => rw [hr] at h; cases h

theorem applyOptions_levelFuncCalls (options : List LogOption) :
    ∀ (opts opts1 : HandlerOptions) (w w1 : World),
      applyOptions options opts w = .done opts1 w1 →
      w1.levelFuncCalls = w.levelFuncCalls + options.countP LogOption.callsLevelFunc := by
  induction options with
  | nil =>
    intro opts opts1 w w1 h
    simp only [applyOptions, Res.done.injEq] at h
    rw [← h.2]
    simp
  | cons o rest ih =>
    intro opts opts1 w w1 h
    rw [applyOptions_cons] at h
    cases hr : o.apply opts w with
    | done opts2 w2 =>
      rw [hr] at h
      have h1 := (apply_done o opts opts2 w w2 hr).2.2.2.2
      have h2 := ih opts2 opts1 w2 w1 h
      rw [h2, h1, List.countP_cons]
      omega
    | panicked msg w2 => rw [hr] at h; cases h
    | exited code w2 => rw [hr] at h; cases h

theorem apply_ReplaceAttr (o : LogOption) (opts opts1 : HandlerOptions) (w w1 : World)
    (hopts : opts.ReplaceAttr = none ∨
      ∃ Format format, opts.ReplaceAttr = some (WithTimeFormat.ReplaceAttr Format format))
    (h : o.apply opts w = .done opts1 w1) :
    opts1.ReplaceAttr = none ∨
      ∃ Format format, opts1.ReplaceAttr = some (WithTimeFormat.ReplaceAttr Format format) := by
  have hrep := (apply_done o opts opts1 w w1 h).2.2.1
  cases o with
  | WithTimeFormat format => exact Or.inr ⟨w.timeFormat, format, hrep⟩
  | _ => rw [hrep]; exact hopts

theorem applyOptions_ReplaceAttr (options : List LogOption) :
    ∀ (opts opts1 : HandlerOptions) (w w1 : World),
      (opts.ReplaceAttr = none ∨
        ∃ Format format, opts.ReplaceAttr = some (WithTimeFormat.ReplaceAttr Format format)) →
      applyOptions options opts w = .done opts1 w1 →
      (opts1.ReplaceAttr = none ∨
        ∃ Format format,
          opts1.ReplaceAttr = some (WithTimeFormat.ReplaceAttr Format format)) := by
  induction options with
  | nil =>
    intro opts opts1 w w1 hopts h
    simp only [applyOptions, Res.done.injEq] at h
    rw [← h.1]
    exact hopts
  | cons o rest ih =>
    intro opts opts1 w w1 hopts h
    rw [applyOptions_cons] at h
    cases hr : o.apply opts w with
    | done opts2 w2 =>
      rw [hr] at h
      exact ih opts2 opts1 w2 w1 (apply_ReplaceAttr o opts opts2 w w2 hopts hr) h
    | panicked msg w2 => rw [hr] at h; cases h
    | exited code w2 => rw [hr] at h; cases h

theorem apply_fileLogger (o : LogOption) (opts opts1 : HandlerOptions) (w w1 : World)
    (h : o.apply opts w = .done opts1 w1) :
    ((∃ c, o = .WithFileOutput c) ∨ ∃ ptr, w.fileLogger = some ptr ∧ w.heap.length = ptr + 1) →
    ∃ ptr, w1.fileLogger = some ptr ∧ w1.heap.length = ptr + 1 := by
  cases o with
  | WithFileOutput c =>
    intro _
    rcases WithFileOutput_spec c opts w with ⟨_, msg, h2, _⟩ | ⟨_, filename, _, _, h2⟩
    · simp [LogOption.apply, h2] at h
    · simp only [LogOption.apply, h2, Res.done.injEq] at h
      rw [← h.2]
      exact ⟨w.heap.length, rfl, by simp⟩
  | WithLevelFunc levelFunc =>
    intro hq
    rcases apply_WithLevelFunc levelFunc opts w with
      ⟨_, msg, h2⟩ | ⟨f, level, user, _, _, h2⟩ | ⟨f, msg, user, _, _, h2⟩
    · rw [h2] at h; cases h
    · rw [h2] at h
      simp only [Res.done.injEq] at h
      rw [← h.2]
      rcases hq with ⟨c, hc⟩ | hq
      · cases hc
      · exact hq
    · rw [h2] at h; cases h
  | _ =>
    intro hq
    simp only [LogOption.apply, Res.done.injEq] at h
    rw [← h.2]
    rcases hq with ⟨c, hc⟩ | hq
    · cases hc
    · simpa [SetDefault] using hq

theorem applyOptions_fileLogger (options : List LogOption) :
    ∀ (opts opts1 : HandlerOptions) (w w1 : World),
      applyOptions options opts w = .done opts1 w1 →
      ((∃ c, LogOption.WithFileOutput c ∈ options) ∨
        ∃ ptr, w.fileLogger = some ptr ∧ w.heap.length = ptr + 1) →
      ∃ ptr, w1.fileLogger = some ptr ∧ w1.heap.length = ptr + 1 := by
  induction options with
  | nil =>
    intro opts opts1 w w1 h hq
    simp only [applyOptions, Res.done.injEq] at h
    rw [← h.2]
    rcases hq with ⟨c, hc⟩ | hq
    · cases hc
    · exact hq
  | cons o rest ih =>
    intro opts opts1 w w1 h hq
    rw [applyOptions_cons] at h
    cases hr : o.apply opts w with
    | done opts2 w2 =>
      rw [hr] at h
      apply ih opts2 opts1 w2 w1 h
      rcases hq with ⟨c, hc⟩ | hq
      · rcases List.mem_cons.mp hc with heq | hmem
        · exact Or.inr (apply_fileLogger o opts opts2 w w2 hr (Or.inl ⟨c, heq.symm⟩))
        · exact Or.inl ⟨c, hmem⟩
      · exact Or.inr (apply_fileLogger o opts opts2 w w2 hr (Or.inr hq))
    | panicked msg w2 => rw [hr] at h; cases h
    | exited code w2 => rw [hr] at h; cases h

theorem apply_source_rewrite (o : LogOption) (optsW optsV optsW1 optsV1 : HandlerOptions)
    (w v w1 v1 : World) (hsrc : optsW.AddSource = optsV.AddSource)
    (hrep : optsW.ReplaceAttr = optsV.ReplaceAttr) (htf : w.timeFormat = v.timeFormat)
    (hw : o.apply optsW w = .done optsW1 w1) (hv : o.apply optsV v = .done optsV1 v1) :
    optsW1.AddSource = optsV1.AddSource ∧ optsW1.ReplaceAttr = optsV1.ReplaceAttr ∧
      w1.timeFormat = v1.timeFormat := by
  obtain ⟨_, hw1, hw2, hw3, _⟩ := apply_done o optsW optsW1 w w1 hw
  obtain ⟨_, hv1, hv2, hv3, _⟩ := apply_done o optsV optsV1 v v1 hv
  refine ⟨?_, ?_, by rw [hw3, hv3, htf]⟩
  · rw [hw1, hv1]
    cases o <;> simp [hsrc]
  · rw [hw2, hv2]
    cases o <;> simp [hrep, htf]

theorem applyOptions_source_rewrite (options : List LogOption) :
    ∀ (optsW optsV optsW1 optsV1 : HandlerOptions) (w v w1 v1 : World),
      optsW.AddSource = optsV.AddSource → optsW.ReplaceAttr = optsV.ReplaceAttr →
      w.timeFormat = v.timeFormat →
      applyOptions options optsW w = .done optsW1 w1 →
      applyOptions options optsV v = .done optsV1 v1 →
      optsW1.AddSource = optsV1.AddSource ∧ optsW1.ReplaceAttr = optsV1.ReplaceAttr := by
  induction options with
  | nil =>
    intro optsW optsV optsW1 optsV1 w v w1 v1 hsrc hrep _ hw hv
    simp only [applyOptions, Res.done.injEq] at hw hv
    rw [← hw.1, ← hv.1]
    exact ⟨hsrc, hrep⟩
  | cons o rest ih =>
    intro optsW optsV optsW1 optsV1 w v w1 v1 hsrc hrep htf hw hv
    rw [applyOptions_cons] at hw hv
    cases hrw : o.apply optsW w with
    | panicked msg w2 => rw [hrw] at hw; cases hw
    | exited code w2 => rw [hrw] at hw; cases hw
    | done optsW2 w2 =>
      cases hrv : o.apply optsV v with
      | panicked msg v2 => rw [hrv] at hv; cases hv
      | exited code v2 => rw [hrv] at hv; cases hv
      | done optsV2 v2 =>
        rw [hrw] at hw
        rw [hrv] at hv
        obtain ⟨h1, h2, h3⟩ :=
          apply_source_rewrite o optsW optsV optsW2 optsV2 w v w2 v2 hsrc hrep htf hrw hrv
        exact ih optsW2 optsV2 optsW1 optsV1 w2 v2 w1 v1 h1 h2 h3 hw hv

theorem applyOptions_timeFormat (options : List LogOption) :
    ∀ (opts opts1 : HandlerOptions) (w w1 : World),
      applyOptions options opts w = .done opts1 w1 → w1.timeFormat = w.timeFormat := by
  induction options with
  | nil =>
    intro opts opts1 w w1 h
    simp only [applyOptions, Res.done.injEq] at h
    rw [← h.2]
  | cons o rest ih =>
    intro opts opts1 w w1 h
    rw [applyOptions_cons] at h
    cases hr : o.apply opts w with
    | done opts2 w2 =>
      rw [hr] at h
      rw [ih opts2 opts1 w2 w1 h, (apply_done o opts opts2 w w2 hr).2.2.2.1]
    | panicked msg w2 => rw [hr] at h; cases h
    | exited code w2 => rw [hr] at h; cases h

theorem closeTimes_latched (n : Nat) : ∀ w : World, w.closeOnce = true → closeTimes n w = w := by
  induction n with
  | zero => intro w _; rfl
  | succ n ih =>
    intro w hw
    show closeTimes n (Close w) = w
    rw [(Close_frame w).2.2 hw]
    exact ih w hw

theorem closeTimes_succ (n : Nat) (w : World) : closeTimes (n + 1) w = Close w := by
  show closeTimes n (Close w) = Close w
  exact closeTimes_latched n (Close w) (Close_frame w).2.1

theorem applyOptions_never_exits (options : List LogOption) :
    ∀ (opts : HandlerOptions) (w : World) (code : Int) (w1 : World),
      applyOptions options opts w ≠ .exited code w1 := by
  induction options with
  | nil => intro opts w code w1 h; cases h
  | cons o rest ih =>
    intro opts w code w1 h
    rw [applyOptions_cons] at h
    cases hr : o.apply opts w with
    | done opts2 w2 => rw [hr] at h; exact ih opts2 w2 code w1 h
    | panicked msg w2 => rw [hr] at h; cases h
    | exited code2 w2 =>
      cases o with
      | WithFileOutput c =>
        rcases WithFileOutput_spec c opts w with ⟨_, msg, h2, _⟩ | ⟨_, filename, _, _, h2⟩
        · simp [LogOption.apply, h2] at hr
        · simp [LogOption.apply, h2] at hr
      | WithLevelFunc levelFunc =>
        rcases apply_WithLevelFunc levelFunc opts w with
          ⟨_, msg, h2⟩ | ⟨f, level, user, _, _, h2⟩ | ⟨f, msg, user, _, _, h2⟩ <;>
          · rw [h2] at hr; cases hr
      | _ => simp [LogOption.apply] at hr

theorem Init_sink_or_panic (options : List LogOption) (w : World) :
    (Init options w).world.defaultLogger.sink = .stdout ∨
      ∃ msg w1, Init options w = .panicked msg w1 := by
  rw [Init_eq]
  cases hall : applyOptions options {} w with
  | done opts1 w1 => exact Or.inl rfl
  | panicked msg w1 => exact Or.inr ⟨msg, w1, rfl⟩
  | exited code w1 => exact absurd hall (applyOptions_never_exits options {} w code w1)

theorem last_severity_split (options : List LogOption)
    (h : ∃ o ∈ options, o.setsSeverity = true) :
    ∃ pre o post, options = pre ++ o :: post ∧ o.setsSeverity = true ∧
      ∀ p ∈ post, p.setsSeverity = false := by
  induction options with
  | nil =>
    obtain ⟨o, ho, _⟩ := h
    cases ho
  | cons a rest ih =>
    by_cases hr : ∃ o ∈ rest, o.setsSeverity = true
    · obtain ⟨pre, o, post, hsplit, ho, hp⟩ := ih hr
      exact ⟨a :: pre, o, post, by rw [hsplit]; rfl, ho, hp⟩
    · have hnone : ∀ p ∈ rest, p.setsSeverity = false := by
        intro p hp
        cases hs : p.setsSeverity
        · rfl
        · exact absurd ⟨p, hp, hs⟩ hr
      obtain ⟨o, ho, hs⟩ := h
      rcases List.mem_cons.mp ho with heq | hmem
      · exact ⟨[], a, rest, rfl, heq ▸ hs, hnone⟩
      · rw [hnone o hmem] at hs
        cases hs

theorem Init_minLevel_at_split (pre post : List LogOption) (o : LogOption) (w w1 : World)
    (ho : o.setsSeverity = true) (hpost : ∀ p ∈ post, p.setsSeverity = false)
    (hinit : Init (pre ++ o :: post) w = .done () w1) :
    ∃ opts0 w0, applyOptions pre {} w = .done opts0 w0 ∧
      w1.defaultLogger.minLevel = o.severityAt w0 ∧
      w1.levelFuncCalls =
        w.levelFuncCalls + (pre ++ o :: post).countP LogOption.callsLevelFunc ∧
      ∀ level msg args,
        (Log level msg args w1).world.levelFuncCalls = w1.levelFuncCalls ∧
        (Log level msg args w1).world.defaultLogger.minLevel = o.severityAt w0 := by
  rw [Init_eq] at hinit
  cases hall : applyOptions (pre ++ o :: post) {} w with
  | panicked msg w2 => rw [hall] at hinit; cases hinit
  | exited code w2 => rw [hall] at hinit; cases hinit
  | done opts2 w2 =>
    rw [hall] at hinit
    simp only [Res.done.injEq, true_and] at hinit
    have hcalls := applyOptions_levelFuncCalls _ _ _ _ _ hall
    rw [applyOptions_append] at hall
    cases hpre : applyOptions pre {} w with
    | panicked msg w0 => rw [hpre] at hall; cases hall
    | exited code w0 => rw [hpre] at hall; cases hall
    | done opts0 w0 =>
      rw [hpre] at hall
      simp only [] at hall
      rw [applyOptions_cons] at hall
      cases ho3 : o.apply opts0 w0 with
      | panicked msg w3 => rw [ho3] at hall; cases hall
      | exited code w3 => rw [ho3] at hall; cases hall
      | done opts3 w3 =>
      rw [ho3] at hall
      have hlevel := apply_severity o opts0 opts3 w0 w3 ho ho3
      have hkeep := applyOptions_keeps_Level post opts3 opts2 w3 w2 hpost hall
      have hmin : w1.defaultLogger.minLevel = o.severityAt w0 := by
        rw [← hinit]
        simp [SetDefault, Handler.minLevel, hkeep, hlevel]
      refine ⟨opts0, w0, rfl, hmin, ?_, ?_⟩
      · rw [← hinit]
        simpa [SetDefault] using hcalls
      · intro level msg args
        have hlog := Log_frame level msg args w1
        exact ⟨hlog.2.2.2.2.2.2.1, by rw [hlog.2.2.2.2.2.2.2, hmin]⟩

/-! ## The properties -/

/-- C1, evaluated on the code: `Init` with `WithOutput(w)` as its only option
returns, and the default logger it leaves writes to standard output, not to
`w`; likewise with `WithFileOutput(c)` the rotating writer is allocated and
kept in `fileLogger`, yet the default logger writes to standard output.  The
handler that `Init` builds after the loop replaces the one the option
installed: for every option list, `Init` either panics or leaves a default
logger over standard output. -/
theorem Init_sink_option_ends_on_stdout :
    (∃ w1, Init [.WithOutput (.custom 1)] sampleWorld = .done () w1 ∧
      w1.defaultLogger.sink = .stdout ∧ w1.defaultLogger.sink ≠ .custom 1) ∧
    (∃ w1, Init [.WithFileOutput sampleConfig] sampleWorld = .done () w1 ∧
      w1.fileLogger = some 0 ∧
      w1.defaultLogger.sink = .stdout ∧ w1.defaultLogger.sink ≠ .rotating 0) ∧
    (∀ options w, (Init options w).world.defaultLogger.sink = .stdout ∨
      ∃ msg w1, Init options w = .panicked msg w1) :=
  ⟨⟨_, rfl, by decide, by decide⟩, ⟨_, rfl, by decide, by decide, by decide⟩,
    Init_sink_or_panic⟩

/-- C2: when `Init` returns on an option list that contains a
severity-setting option, the list splits at the last such option `o`
(options `pre` before it, options `post` without a severity-setting one
after it), and the minimum severity of the default logger is the level `o`
contributes in the world the options before it left: `l` for
`WithLevel(l)`, the value `f` returned for `WithLevelFunc(f)`.  Each
occurrence of `WithLevelFunc` calls its function once during `Init`, and a
log call afterwards calls none and leaves the minimum severity as it is. -/
theorem Init_minimum_severity (options : List LogOption) (w w1 : World)
    (hsev : ∃ o ∈ options, o.setsSeverity = true)
    (hinit : Init options w = .done () w1) :
    ∃ pre o post opts0 w0, options = pre ++ o :: post ∧ o.setsSeverity = true ∧
      (∀ p ∈ post, p.setsSeverity = false) ∧
      applyOptions pre {} w = .done opts0 w0 ∧
      w1.defaultLogger.minLevel = o.severityAt w0 ∧
      w1.levelFuncCalls = w.levelFuncCalls + options.countP LogOption.callsLevelFunc ∧
      ∀ level msg args,
        (Log level msg args w1).world.levelFuncCalls = w1.levelFuncCalls ∧
        (Log level msg args w1).world.defaultLogger.minLevel = o.severityAt w0 := by
  obtain ⟨pre, o, post, hsplit, ho, hpost⟩ := last_severity_split options hsev
  subst hsplit
  obtain ⟨opts0, w0, h1, h2, h3, h4⟩ := Init_minLevel_at_split pre post o w w1 ho hpost hinit
  exact ⟨pre, o, post, opts0, w0, rfl, ho, hpost, h1, h2, h3, h4⟩

/-- Witness of C2: a fixed level, then the counting level function twice
(it returns 0, then 1), then a source option. -/
theorem Init_minimum_severity_witness :
    ∃ pre o post opts0 w0,
      [LogOption.WithLevel 4, .WithLevelFunc countingLevel, .WithLevelFunc countingLevel,
        .WithSource true] = pre ++ o :: post ∧ o.setsSeverity = true ∧
      (∀ p ∈ post, p.setsSeverity = false) ∧
      applyOptions pre {} sampleWorld = .done opts0 w0 ∧
      twoCountsWorld.defaultLogger.minLevel = o.severityAt w0 ∧
      twoCountsWorld.levelFuncCalls =
        sampleWorld.levelFuncCalls +
          [LogOption.WithLevel 4, .WithLevelFunc countingLevel, .WithLevelFunc countingLevel,
            .WithSource true].countP LogOption.callsLevelFunc ∧
      ∀ level msg args,
        (Log level msg args twoCountsWorld).world.levelFuncCalls
          = twoCountsWorld.levelFuncCalls ∧
        (Log level msg args twoCountsWorld).world.defaultLogger.minLevel = o.severityAt w0 :=
  Init_minimum_severity
    [.WithLevel 4, .WithLevelFunc countingLevel, .WithLevelFunc countingLevel, .WithSource true]
    sampleWorld twoCountsWorld ⟨.WithLevel 4, by simp, rfl⟩ rfl

/-- C3, counterexample: after `Init(WithLevel(13))` the call `Fatal("boom")`
ends the process with status 1 and no record has been written. -/
theorem Fatal_above_FatalLevel_writes_nothing :
    ∃ w1, Init [.WithLevel 13] sampleWorld = .done () w1 ∧
      Fatal "boom" [] w1 = .exited 1 w1 ∧
      (Fatal "boom" [] w1).world.written = [] :=
  ⟨_, rfl, rfl, rfl⟩

/-- C3, amended: `FatalLevel` (12) is above the error level (8).  After any
`Init` that returned, `Fatal(msg)` ends the process with exit status 1; when
the minimum severity of the default logger is at most `FatalLevel` it first
writes exactly one entry, to standard output, whose message is `msg` and
whose severity is `FatalLevel`; when the minimum severity is above
`FatalLevel` it writes nothing. -/
theorem Fatal_after_Init (options : List LogOption) (w w1 : World) (msg : String)
    (hinit : Init options w = .done () w1) :
    LevelError < FatalLevel ∧
    (w1.defaultLogger.minLevel ≤ FatalLevel →
      ∃ fields,
        Fatal msg [] w1 = .exited 1 { w1 with written := w1.written ++ [(.stdout, fields)] } ∧
        fieldOf MessageKey fields = some (.string msg) ∧
        fieldOf LevelKey fields = some (.level FatalLevel)) ∧
    (FatalLevel < w1.defaultLogger.minLevel → Fatal msg [] w1 = .exited 1 w1) := by
  refine ⟨by decide, ?_, ?_⟩
  · intro hle
    rw [Init_eq] at hinit
    cases hall : applyOptions options {} w with
    | panicked m w2 => rw [hall] at hinit; cases hinit
    | exited code w2 => rw [hall] at hinit; cases hinit
    | done opts1 w2 =>
      rw [hall] at hinit
      simp only [Res.done.injEq, true_and] at hinit
      have hrep := applyOptions_ReplaceAttr options {} opts1 w w2 (Or.inl rfl) hall
      subst hinit
      have hen : (SetDefault (.json .stdout opts1) w2).defaultLogger.Enabled FatalLevel
          = true := by
        simpa [Handler.Enabled] using hle
      obtain ⟨src, lvl, rep⟩ := opts1
      have hhandle : ∃ fields,
          (Handler.json .stdout ⟨src, lvl, rep⟩).Handle
              { Time := w2.now, Level := FatalLevel, Message := msg, Attrs := [] }
              (SetDefault (.json .stdout ⟨src, lvl, rep⟩) w2)
            = .done () { SetDefault (.json .stdout ⟨src, lvl, rep⟩) w2 with
                written := w2.written ++ [(.stdout, fields)] } ∧
          fieldOf MessageKey fields = some (.string msg) ∧
          fieldOf LevelKey fields = some (.level FatalLevel) := by
        rcases hrep with hnone | ⟨Format, format, hsome⟩
        · simp only at hnone
          subst hnone
          cases src
          · exact ⟨_, rfl, rfl, rfl⟩
          · exact ⟨_, rfl, rfl, rfl⟩
        · simp only at hsome
          subst hsome
          cases src
          · exact ⟨_, rfl, rfl, rfl⟩
          · exact ⟨_, rfl, rfl, rfl⟩
      obtain ⟨fields, hh, hmsg, hlvl⟩ := hhandle
      refine ⟨fields, ?_, hmsg, hlvl⟩
      unfold Fatal Log
      rw [hen]
      simp only [Bool.not_true, Bool.false_eq_true, if_false]
      show (match (Handler.json .stdout ⟨src, lvl, rep⟩).Handle
              { Time := w2.now, Level := FatalLevel, Message := msg, Attrs := [] }
              (SetDefault (.json .stdout ⟨src, lvl, rep⟩) w2) with
        | .done _ w1 => Res.exited 1 w1
        | .panicked m w1 => .panicked m w1
        | .exited code w1 => .exited code w1) = _
      rw [hh]
      rfl
  · intro hlt
    have hen : w1.defaultLogger.Enabled FatalLevel = false := by
      simpa [Handler.Enabled] using hlt
    unfold Fatal Log
    rw [hen]
    rfl

/-- Witness of C3: a logger at the error level with a date format. -/
theorem Fatal_after_Init_witness :
    ∃ fields,
      Fatal "boom" [] dateLoggerWorld
        = .exited 1
          { dateLoggerWorld with written := dateLoggerWorld.written ++ [(.stdout, fields)] } ∧
      fieldOf MessageKey fields = some (.string "boom") ∧
      fieldOf LevelKey fields = some (.level FatalLevel) :=
  (Fatal_after_Init [.WithLevel 8, .WithTimeFormat "2006-01-02"] sampleWorld dateLoggerWorld
    "boom" rfl).2.1 (by decide)

/-- C4, counterexample: `Close` is called once before `Init` configures a
file sink; two further calls of `Close` on the configured sink release
nothing.  Also, no call of `Close` at all (`N = 0`) on a sink configured in
a fresh process releases nothing, not once. -/
theorem Close_after_early_Close_releases_nothing :
    (∃ w1, Init [.WithFileOutput sampleConfig] (Close sampleWorld) = .done () w1 ∧
      w1.fileLogger = some 0 ∧ (closeTimes 2 w1).released = []) ∧
    (∃ w1, Init [.WithFileOutput sampleConfig] sampleWorld = .done () w1 ∧
      w1.fileLogger = some 0 ∧ (closeTimes 0 w1).released = []) :=
  ⟨⟨_, rfl, by decide, by decide⟩, ⟨_, rfl, by decide, by decide⟩⟩

/-- C4, amended: in a process where `Close` has not been called yet, after an
`Init` with a `WithFileOutput` option that returned, `N` calls of `Close`
release the file sink held in `fileLogger` (the writer allocated last)
exactly once when `N ≥ 1` and not at all when `N = 0`; no call after the
first changes anything, and `Close` has no error to report. -/
theorem Close_releases_once (options : List LogOption) (w w1 : World) (N : Nat)
    (hlatch : w.closeOnce = false) (hfile : ∃ c, LogOption.WithFileOutput c ∈ options)
    (hinit : Init options w = .done () w1) :
    ∃ ptr, w1.fileLogger = some ptr ∧ w1.heap.length = ptr + 1 ∧
      (closeTimes N w1).released = w1.released ++ (if N = 0 then [] else [ptr]) ∧
      ∀ k, 0 < k → Close (closeTimes k w1) = closeTimes k w1 := by
  have hframe := Init_frame options w
  rw [hinit] at hframe
  simp only [Res.world] at hframe
  rw [Init_eq] at hinit
  cases hall : applyOptions options {} w with
  | panicked m w2 => rw [hall] at hinit; cases hinit
  | exited code w2 => rw [hall] at hinit; cases hinit
  | done opts1 w2 =>
    rw [hall] at hinit
    simp only [Res.done.injEq, true_and] at hinit
    obtain ⟨ptr, hptr, hlen⟩ := applyOptions_fileLogger options {} opts1 w w2 hall (Or.inl hfile)
    have hptr1 : w1.fileLogger = some ptr := by rw [← hinit]; exact hptr
    have hlen1 : w1.heap.length = ptr + 1 := by rw [← hinit]; exact hlen
    have hopen : w1.closeOnce = false := by rw [hframe.2.1, hlatch]
    refine ⟨ptr, hptr1, hlen1, ?_, ?_⟩
    · cases N with
      | zero => simp [closeTimes]
      | succ n =>
        rw [closeTimes_succ]
        simp [Close, hopen, hptr1]
    · intro k hk
      obtain ⟨n, rfl⟩ : ∃ n, k = n + 1 := ⟨k - 1, by omega⟩
      rw [closeTimes_succ]
      exact (Close_frame (Close w1)).2.2 (Close_frame w1).2.1

/-- Witness of C4: three calls of `Close` after `Init` with one file
option in a fresh process. -/
theorem Close_releases_once_witness :
    ∃ ptr, fileSinkWorld.fileLogger = some ptr ∧ fileSinkWorld.heap.length = ptr + 1 ∧
      (closeTimes 3 fileSinkWorld).released
        = fileSinkWorld.released ++ (if 3 = 0 then [] else [ptr]) ∧
      ∀ k, 0 < k → Close (closeTimes k fileSinkWorld) = closeTimes k fileSinkWorld :=
  Close_releases_once [.WithSource true, .WithFileOutput sampleConfig] sampleWorld
    fileSinkWorld 3 rfl ⟨sampleConfig, by simp⟩ rfl

/-- C5: when `WithFileOutput(c)` succeeds, the rotating writer it allocates
and keeps in `fileLogger` has as its path `c.Filename` unchanged when that is
absolute, and `Join(cwd, c.Filename)` for the working directory `cwd` when
it is relative; its maximum size, backups, age and compression are those
of `c`. -/
theorem WithFileOutput_sink_settings (c : FileOutputConfig) (opts opts1 : HandlerOptions)
    (w w1 : World) (h : WithFileOutput c opts w = .done opts1 w1) :
    ∃ sink, w1.heap = w.heap ++ [sink] ∧ w1.fileLogger = some w.heap.length ∧
      w1.defaultLogger.sink = .rotating w.heap.length ∧
      (IsAbs c.Filename = true → sink.Filename = c.Filename) ∧
      (IsAbs c.Filename = false →
        ∃ cwd, w.getwd = .ok cwd ∧ sink.Filename = Join [cwd, c.Filename]) ∧
      sink.MaxSize = c.MaxSize ∧ sink.MaxBackups = c.MaxBackups ∧
      sink.MaxAge = c.MaxAge ∧ sink.Compress = c.Compress := by
  rcases WithFileOutput_spec c opts w with ⟨_, msg, h2, _⟩ | ⟨_, filename, habs, hrel, h2⟩
  · rw [h2] at h; cases h
  · rw [h2] at h
    simp only [Res.done.injEq] at h
    rw [← h.2]
    exact ⟨_, rfl, rfl, rfl, habs, hrel, rfl, rfl, rfl, rfl⟩

/-- Witness of C5: the relative `logs/app.log` in `/srv/app`. -/
theorem WithFileOutput_sink_settings_witness :
    ∃ sink, fileOnlyWorld.heap = sampleWorld.heap ++ [sink] ∧
      fileOnlyWorld.fileLogger = some sampleWorld.heap.length ∧
      fileOnlyWorld.defaultLogger.sink = .rotating sampleWorld.heap.length ∧
      (IsAbs sampleConfig.Filename = true → sink.Filename = sampleConfig.Filename) ∧
      (IsAbs sampleConfig.Filename = false →
        ∃ cwd, sampleWorld.getwd = .ok cwd ∧ sink.Filename = Join [cwd, sampleConfig.Filename]) ∧
      sink.MaxSize = sampleConfig.MaxSize ∧ sink.MaxBackups = sampleConfig.MaxBackups ∧
      sink.MaxAge = sampleConfig.MaxAge ∧ sink.Compress = sampleConfig.Compress :=
  WithFileOutput_sink_settings sampleConfig {} {} sampleWorld fileOnlyWorld rfl

/-- C6: `WithFileOutput(c)` panics exactly when the working directory cannot
be determined for a relative `c.Filename` or the parent directory of the log
file cannot be created; the panic carries the matching diagnostic, and the
world it leaves has the file sink, the default logger and the allocated
writers it had before.  The option never ends the process by itself. -/
theorem WithFileOutput_abort (c : FileOutputConfig) (opts : HandlerOptions) (w : World) :
    ((∃ msg w1, WithFileOutput c opts w = .panicked msg w1) ↔ fileOutputFault c w) ∧
    (∀ msg w1, WithFileOutput c opts w = .panicked msg w1 →
      ((∃ err, msg = "Unable to get current working directory: " ++ err) ∨
        ∃ err, msg = "Unable to create log directory: " ++ err) ∧
      w1.fileLogger = w.fileLogger ∧ w1.defaultLogger = w.defaultLogger ∧
      w1.heap = w.heap) ∧
    (∀ code w1, WithFileOutput c opts w ≠ .exited code w1) := by
  rcases WithFileOutput_spec c opts w with ⟨hfault, msg, h, hmsg⟩ | ⟨hok, filename, _, _, h⟩
  · refine ⟨⟨fun _ => hfault, fun _ => ⟨msg, w, h⟩⟩, ?_, ?_⟩
    · intro msg1 w1 h1
      rw [h] at h1
      simp only [Res.panicked.injEq] at h1
      rw [← h1.1, ← h1.2]
      exact ⟨hmsg, rfl, rfl, rfl⟩
    · intro code w1 h1
      rw [h] at h1
      cases h1
  · refine ⟨⟨?_, fun hf => absurd hf hok⟩, ?_, ?_⟩
    · rintro ⟨msg1, w1, h1⟩
      rw [h] at h1
      cases h1
    · intro msg1 w1 h1
      rw [h] at h1
      cases h1
    · intro code w1 h1
      rw [h] at h1
      cases h1

/-- Witness of C6: a relative filename where the working directory is
lost. -/
theorem WithFileOutput_abort_witness :
    ∃ msg w1, WithFileOutput sampleConfig {} lostWorld = .panicked msg w1 :=
  (WithFileOutput_abort sampleConfig {} lostWorld).1.mpr (Or.inl ⟨by decide, _, rfl⟩)

/-- C7, counterexample: with the format `2006-01-02` the timestamp of the
first day of the year 10000 is rendered as `10000-01-01`, 11 characters, and
that is the string the rewrite stores, whatever function renders the
modelled layouts as the library does. -/
theorem date_format_year_10000 :
    formatLayout year10000 "2006-01-02".data = some "10000-01-01".data ∧
    "10000-01-01".length = 11 ∧
    (∀ Format, RendersLayouts Format →
      WithTimeFormat.ReplaceAttr Format "2006-01-02" []
          { Key := TimeKey, Value := .time year10000 }
        = .ok { Key := TimeKey, Value := .string "10000-01-01" }) := by
  refine ⟨by decide, by decide, ?_⟩
  intro Format hF
  have h := hF year10000 "2006-01-02" "10000-01-01".data (by decide)
  simp [WithTimeFormat.ReplaceAttr, Value.Time, slogString, h]

/-- C7, amended: `WithTimeFormat(format)` stores its rewrite in the options
and changes nothing else.  For the library's `Format`, whatever it is, the
rewrite maps the timestamp attribute (key `time`, value a time `t`) to a
string attribute with the same key whose value is `t` rendered with
`format`, and returns every attribute with another key unchanged, whatever
the group path.  When `Format` renders the modelled layouts as the library
does, the format `2006-01-02` yields a date of 10 characters for every `t`
whose year is between 0 and 9999. -/
theorem WithTimeFormat_rewrite (Format : Time → String → String) (format : String)
    (groups : List String) (t : Time) :
    (∀ opts w, (LogOption.WithTimeFormat format).apply opts w =
      .done { opts with ReplaceAttr := some (WithTimeFormat.ReplaceAttr w.timeFormat format) }
        w) ∧
    WithTimeFormat.ReplaceAttr Format format groups { Key := TimeKey, Value := .time t }
      = .ok { Key := TimeKey, Value := .string (Format t format) } ∧
    (∀ a : Attr, a.Key ≠ TimeKey → WithTimeFormat.ReplaceAttr Format format groups a = .ok a) ∧
    (RendersLayouts Format → 0 ≤ t.year → t.year ≤ 9999 →
      (Format t "2006-01-02").length = 10) := by
  refine ⟨fun _ _ => rfl, ?_, ?_, fun hF => Format_date_length Format hF t⟩
  · simp [WithTimeFormat.ReplaceAttr, Value.Time, slogString]
  · intro a ha
    simp [WithTimeFormat.ReplaceAttr, ha]

/-- Witness of C7: 5 March 2024 under the date format, and an attribute
with another key inside a group. -/
theorem WithTimeFormat_rewrite_witness :
    (sampleFormat sampleTime "2006-01-02").length = 10 ∧
    WithTimeFormat.ReplaceAttr sampleFormat "2006-01-02" ["request"]
        { Key := "user", Value := .string "ada" }
      = .ok { Key := "user", Value := .string "ada" } :=
  ⟨(WithTimeFormat_rewrite sampleFormat "2006-01-02" [] sampleTime).2.2.2
      sampleFormat_renders (by decide) (by decide),
    (WithTimeFormat_rewrite sampleFormat "2006-01-02" ["request"] sampleTime).2.2.1 _
      (by decide)⟩

/-- C8: in every world a process can reach, `DefaultFileOutputConfig(f)`
returns the configuration with filename `f`, 100 MB, no limit on backups, 28
days and compression, and leaves the world, the shared default instance
included, as it was; a second call with another filename returns that
filename with the same four values. -/
theorem DefaultFileOutputConfig_value (w : World) (hw : Reachable w) (f g : String) :
    DefaultFileOutputConfig f w
      = .done { Filename := f, MaxSize := 100, MaxBackups := 0, MaxAge := 28,
                Compress := true } w ∧
    DefaultFileOutputConfig g (DefaultFileOutputConfig f w).world
      = .done { Filename := g, MaxSize := 100, MaxBackups := 0, MaxAge := 28,
                Compress := true } w ∧
    (DefaultFileOutputConfig f w).world.defaultFileOutputConfig = defaultFileOutputConfig := by
  obtain ⟨getwd, mkdirAllErr, now, timeFormat, user, ops, hrun⟩ := hw
  have hcfg : w.defaultFileOutputConfig = defaultFileOutputConfig := by
    rw [← hrun]
    exact (run_world ops (World.start getwd mkdirAllErr now timeFormat user)).1
  simp [DefaultFileOutputConfig, hcfg, defaultFileOutputConfig, Res.world]

/-- Witness of C8: after an `Init` with a file option, an earlier call of
`DefaultFileOutputConfig` and a `Close`. -/
theorem DefaultFileOutputConfig_value_witness :
    DefaultFileOutputConfig "b.log" busyWorld
      = .done { Filename := "b.log", MaxSize := 100, MaxBackups := 0, MaxAge := 28,
                Compress := true } busyWorld :=
  (DefaultFileOutputConfig_value busyWorld
    ⟨.ok "/srv/app", fun _ => none, sampleTime, sampleFormat, 0, _, rfl⟩ "b.log" "c.log").1

/-- C9, counterexample: `Init(WithLevelFunc(f))` run after
`Init(WithLevelFunc(f))`, for `f` that counts its calls, leaves minimum
severity 1, while run alone it leaves 0. -/
theorem Init_after_Init_level_differs :
    (Init [.WithLevelFunc countingLevel]
        (Init [.WithLevelFunc countingLevel] sampleWorld).world).world.defaultLogger.minLevel = 1 ∧
    (Init [.WithLevelFunc countingLevel] sampleWorld).world.defaultLogger.minLevel = 0 ∧
    (Init [.WithLevelFunc countingLevel]
        (Init [.WithLevelFunc countingLevel] sampleWorld).world).world.defaultLogger
      ≠ (Init [.WithLevelFunc countingLevel] sampleWorld).world.defaultLogger := by
  refine ⟨by decide, by decide, fun h => ?_⟩
  have h2 := congrArg Handler.minLevel h
  revert h2
  decide

/-- C9, amended: for option lists `A` and `B` without sink-changing options,
whenever `Init(A)`, the `Init(B)` after it and `Init(B)` alone return, the
default logger after `Init(A)` followed by `Init(B)` has the sink (standard
output), the source flag and the attribute-rewrite function it has after
`Init(B)` alone; the minimum severity is the same too when the last
severity-setting option of `B`, if there is one, is not a `WithLevelFunc`
(a level function is called during `Init(B)` and may return another level
after `Init(A)`).  No field of the options record set by `A` survives. -/
theorem Init_replaces_previous (A B : List LogOption) (w w1 w2 v2 : World)
    (_hA : ∀ o ∈ A, o.changesSink = false) (_hB : ∀ o ∈ B, o.changesSink = false)
    (h1 : Init A w = .done () w1) (h2 : Init B w1 = .done () w2)
    (h3 : Init B w = .done () v2) :
    w2.defaultLogger.sink = .stdout ∧ v2.defaultLogger.sink = .stdout ∧
    w2.defaultLogger.opts.AddSource = v2.defaultLogger.opts.AddSource ∧
    w2.defaultLogger.opts.ReplaceAttr = v2.defaultLogger.opts.ReplaceAttr ∧
    ((∀ pre o post, B = pre ++ o :: post → o.setsSeverity = true →
        (∀ p ∈ post, p.setsSeverity = false) → o.callsLevelFunc = false) →
      w2.defaultLogger.minLevel = v2.defaultLogger.minLevel) := by
  have hframe : w1.timeFormat = w.timeFormat := by
    rw [Init_eq] at h1
    cases hA1 : applyOptions A {} w with
    | panicked msg u => rw [hA1] at h1; cases h1
    | exited code u => rw [hA1] at h1; cases h1
    | done optsA u =>
      rw [hA1] at h1
      simp only [Res.done.injEq, true_and] at h1
      rw [← h1]
      exact applyOptions_timeFormat A {} optsA w u hA1
  have h2' := h2
  have h3' := h3
  rw [Init_eq] at h2 h3
  cases hW : applyOptions B {} w1 with
  | panicked msg u => rw [hW] at h2; cases h2
  | exited code u => rw [hW] at h2; cases h2
  | done optsW uW =>
    cases hV : applyOptions B {} w with
    | panicked msg u => rw [hV] at h3; cases h3
    | exited code u => rw [hV] at h3; cases h3
    | done optsV uV =>
      rw [hW] at h2
      rw [hV] at h3
      simp only [Res.done.injEq, true_and] at h2 h3
      obtain ⟨hsrc, hrep⟩ :=
        applyOptions_source_rewrite B {} {} optsW optsV w1 w uW uV rfl rfl hframe hW hV
      have hw2 : w2.defaultLogger = .json .stdout optsW := by rw [← h2]; rfl
      have hv2 : v2.defaultLogger = .json .stdout optsV := by rw [← h3]; rfl
      refine ⟨by rw [hw2]; rfl, by rw [hv2]; rfl, by rw [hw2, hv2]; exact hsrc,
        by rw [hw2, hv2]; exact hrep, ?_⟩
      intro hfixed
      by_cases hs : ∃ o ∈ B, o.setsSeverity = true
      · obtain ⟨pre, o, post, hsplit, ho, hpost⟩ := last_severity_split B hs
        have hnf := hfixed pre o post hsplit ho hpost
        subst hsplit
        obtain ⟨_, a0, _, ha, _, _⟩ := Init_minLevel_at_split pre post o w1 w2 ho hpost h2'
        obtain ⟨_, b0, _, hb, _, _⟩ := Init_minLevel_at_split pre post o w v2 ho hpost h3'
        rw [ha, hb]
        cases o with
        | WithLevel level => rfl
        | WithLevelFunc levelFunc => simp [LogOption.callsLevelFunc] at hnf
        | _ => simp [LogOption.setsSeverity] at ho
      · have hnone : ∀ p ∈ B, p.setsSeverity = false := by
          intro p hp
          cases hsev : p.setsSeverity
          · rfl
          · exact absurd ⟨p, hp, hsev⟩ hs
        have hlW := applyOptions_keeps_Level B {} optsW w1 uW hnone hW
        have hlV := applyOptions_keeps_Level B {} optsV w uV hnone hV
        rw [hw2, hv2]
        simp [Handler.minLevel, hlW, hlV]

/-- Witness of C9: `A` sets a level, the source flag and a year format; `B`
calls the counting level function, then sets level 2 and the source flag
off.  After `A` then `B` the logger has the sink, source flag, rewrite and
minimum severity it has after `B` alone. -/
theorem Init_replaces_previous_witness :
    secondInitWorld.defaultLogger.sink = .stdout ∧
    aloneInitWorld.defaultLogger.sink = .stdout ∧
    secondInitWorld.defaultLogger.opts.AddSource = aloneInitWorld.defaultLogger.opts.AddSource ∧
    secondInitWorld.defaultLogger.opts.ReplaceAttr
      = aloneInitWorld.defaultLogger.opts.ReplaceAttr ∧
    secondInitWorld.defaultLogger.minLevel = aloneInitWorld.defaultLogger.minLevel := by
  have h := Init_replaces_previous [.WithLevel 4, .WithSource true, .WithTimeFormat "2006"]
    [.WithLevelFunc countingLevel, .WithLevel 2, .WithSource false]
    sampleWorld firstInitWorld secondInitWorld aloneInitWorld
    (by intro o ho; simp at ho; rcases ho with rfl | rfl | rfl <;> rfl)
    (by intro o ho; simp at ho; rcases ho with rfl | rfl | rfl <;> rfl)
    rfl rfl rfl
  refine ⟨h.1, h.2.1, h.2.2.1, h.2.2.2.1, h.2.2.2.2 ?_⟩
  intro pre o post hsplit ho hpost
  rcases pre with _ | ⟨a, _ | ⟨b, _ | ⟨c, pre⟩⟩⟩
  · simp only [List.nil_append, List.cons.injEq] at hsplit
    obtain ⟨_, rfl⟩ := hsplit
    have := hpost (.WithLevel 2) (by simp)
    simp [LogOption.setsSeverity] at this
  · simp only [List.cons_append, List.nil_append, List.cons.injEq] at hsplit
    obtain ⟨_, rfl, _⟩ := hsplit
    rfl
  · simp only [List.cons_append, List.nil_append, List.cons.injEq] at hsplit
    obtain ⟨_, _, rfl, _⟩ := hsplit
    simp [LogOption.setsSeverity] at ho
  · simp [List.cons_append] at hsplit

/-- C10: the first `Close` fires the latch, whether or not a file sink is
configured.  From then on no sequence of calls (`Init` with any options,
options applied directly, `Close`, log calls) resets the latch or releases
anything, so a file sink configured later is never released by `Close`.
`WithFileOutput`, when it succeeds, puts a newly allocated writer in
`fileLogger`, releases nothing (the writer held before stays unreleased)
and leaves the latch as it was; if the latch has fired, no number of
`Close` calls releases the new writer. -/
theorem close_latch_never_reset (ops : List Op) (w : World) (c : FileOutputConfig)
    (opts opts1 : HandlerOptions) (w1 : World) :
    (Close w).closeOnce = true ∧
    ((run ops (Close w)).world.closeOnce = true ∧
      (run ops (Close w)).world.released = (Close w).released) ∧
    (w.closeOnce = true →
      (run ops w).world.closeOnce = true ∧ (run ops w).world.released = w.released) ∧
    (WithFileOutput c opts w = .done opts1 w1 →
      w1.fileLogger = some w.heap.length ∧ w1.heap.length = w.heap.length + 1 ∧
      w1.released = w.released ∧ w1.closeOnce = w.closeOnce ∧
      (w.closeOnce = true → ∀ n, (closeTimes n w1).released = w.released)) := by
  refine ⟨(Close_frame w).2.1, (run_world ops (Close w)).2 (Close_frame w).2.1,
    (run_world ops w).2, ?_⟩
  intro h
  rcases WithFileOutput_spec c opts w with ⟨_, msg, h2, _⟩ | ⟨_, filename, _, _, h2⟩
  · rw [h2] at h; cases h
  · rw [h2] at h
    simp only [Res.done.injEq] at h
    obtain ⟨_, hw1⟩ := h
    have hrel : w1.released = w.released := by rw [← hw1]
    have hlatch : w1.closeOnce = w.closeOnce := by rw [← hw1]
    refine ⟨by rw [← hw1], by rw [← hw1]; simp, hrel, hlatch, ?_⟩
    intro hc n
    rw [closeTimes_latched n w1 (by rw [hlatch, hc]), hrel]

/-- Witness of C10: `Close` in a fresh process, then `Init` with a file
option and two more calls of `Close`; nothing is released, and the file
option on its own allocates the first writer. -/
theorem close_latch_never_reset_witness :
    (run [.Init [.WithFileOutput sampleConfig], .Close, .Close] (Close sampleWorld)).world.released
      = (Close sampleWorld).released ∧
    fileOnlyWorld.fileLogger = some sampleWorld.heap.length :=
  ⟨(close_latch_never_reset [.Init [.WithFileOutput sampleConfig], .Close, .Close] sampleWorld
      sampleConfig {} {} fileOnlyWorld).2.1.2,
    ((close_latch_never_reset [] sampleWorld sampleConfig {} {} fileOnlyWorld).2.2.2 rfl).1⟩

end sloginit
